import Mathlib

/-!
Verification of the delayed, concurrency-bounded notification dispatcher of
`chumspace-backend` (`src/notifications.go`, wired up in `src/main.go`).

The Go source is shallowly embedded:
* `time.Time` instants become `Nat` ticks; `time.Now()` is the `time` field of
  the system state, advanced by an environment `tick` step.
* the Go map `map[string]*ScheduledNotification` becomes a function
  `String → Option Nat`, the `Nat` being a reference into a heap
  (`List ScheduledNotification`) — this models the pointer semantics of the
  Go map (entries are shared, mutable records).
* goroutines (`monitorAndSend` waiters and the single `monitorFunc` consumer
  loop) become components of a system state with explicit program counters,
  and execution is an interleaving small-step relation `Step`.  Every atomic
  step corresponds to a contiguous section of Go code that either is a single
  critical section under `NotificationScheduler.mutex`, or contains a single
  synchronisation action (channel send/receive, semaphore operation).
* the buffered channel `notificationSem` (capacity `maxConcurrentNotifications`)
  becomes a counter `semCount` with acquire guarded by
  `semCount < maxConcurrentNotifications`.
* the unbuffered channel `notifier` becomes a rendezvous step (`handoff`)
  that simultaneously unblocks the waiter and moves the dispatcher to its
  delivery section.
-/

/-- Abstraction of `firebase messaging.Message` (single-target payload).
Only identity matters for the scheduler, which never inspects the body. -/
structure Message where
  token : String
deriving DecidableEq, Repr

/-- Abstraction of `firebase messaging.MulticastMessage` (multi-target payload). -/
structure MulticastMessage where
  tokens : List String
deriving DecidableEq, Repr

/-- `var maxConcurrentNotifications = 3600` (src/notifications.go line 13). -/
def maxConcurrentNotifications : Nat := 3600

/-- `type ScheduledNotification struct` (src/notifications.go lines 16-22).
`ScheduledTime` is a `Nat` tick; pointers `*messaging.Message` and
`*messaging.MulticastMessage` become `Option`s (`none` = nil). -/
structure ScheduledNotification where
  Id : String
  Message : Option Message
  MulticastMessage : Option MulticastMessage
  ScheduledTime : Nat
  CompletionStatus : Bool
deriving DecidableEq, Repr

/-- The `Notifs map[string]*ScheduledNotification` field: a map from id to a
reference (heap index), mirroring the Go map of pointers. -/
def NotifMap : Type := String → Option Nat

/-- Go map assignment `n.Notifs[key] = ref`. -/
def mapInsert (m : NotifMap) (key : String) (ref : Nat) : NotifMap :=
  fun k => if k = key then some ref else m k

/-- `RemoveNotification` (src/notifications.go lines 69-74): under the mutex,
`delete(n.Notifs, target)`.  Go's `delete` on an absent key is a no-op. -/
def RemoveNotification (m : NotifMap) (target : String) : NotifMap :=
  fun k => if k = target then none else m k

/-- `AddNotification` (src/notifications.go lines 38-47) at the map level:
given the caller's record (a pointer `ref` into `heap`) and the id `genId`
returned by `gonanoid.New()` (whose error is discarded by `id, _ := ...`),
it sets `notif.Id = id` on the caller's record and then, under the mutex,
executes `n.Notifs[notif.Id] = notif`.  It returns the updated heap and map.
The `none` branch is unreachable in Go (the pointer always refers to a live
record). -/
def AddNotification (heap : List ScheduledNotification) (m : NotifMap)
    (ref : Nat) (genId : String) : List ScheduledNotification × NotifMap :=
  match heap[ref]? with
  | some r => (heap.set ref { r with Id := genId }, mapInsert m genId ref)
  | none => (heap, m)

/-- Result of a delivery-client call (`Send` / `SendEachForMulticast`):
the dispatcher only logs the error, so the payload of the error is irrelevant. -/
inductive DeliveryOutcome
  | ok
  | err
deriving DecidableEq, Repr

/-- Which delivery-client operation the dispatcher invoked for a notification:
`Send` on the single message, `SendEachForMulticast` on the multicast message,
or no call at all (malformed payload). -/
inductive SendCall
  | sendOne (m : Message)
  | sendMany (m : MulticastMessage)
  | noSend
deriving DecidableEq, Repr

/-- One iteration of the dispatcher loop body (src/notifications.go lines
82-99) for a received notification: branch on `notif.Message != nil`, else
`notif.MulticastMessage != nil`, else log "no message specified"; a delivery
error (`outcome = .err`) is only logged — not retried, not re-enqueued, not
returned; finally `scheduler.RemoveNotification(notif.Id)` runs
unconditionally.  Returns the updated map and the delivery call made. -/
def dispatchOnce (m : NotifMap) (notif : ScheduledNotification)
    (outcome : DeliveryOutcome) : NotifMap × SendCall :=
  match notif.Message with
  | some msg =>
      -- `Send`; on error only a log line is produced, `outcome` is otherwise unused
      match outcome with
      | .ok => (RemoveNotification m notif.Id, SendCall.sendOne msg)
      | .err => (RemoveNotification m notif.Id, SendCall.sendOne msg)
  | none =>
      match notif.MulticastMessage with
      | some mm =>
          match outcome with
          | .ok => (RemoveNotification m notif.Id, SendCall.sendMany mm)
          | .err => (RemoveNotification m notif.Id, SendCall.sendMany mm)
      | none => (RemoveNotification m notif.Id, SendCall.noSend)

example :
    (dispatchOnce (fun _ => none) ⟨"a", some ⟨"t"⟩, none, 0, false⟩ .err).2 =
      SendCall.sendOne ⟨"t"⟩ := by decide

/-! ## The concurrent system

Program counters for the per-notification `monitorAndSend` goroutine (the
Waiter, src/notifications.go lines 49-67):
* `sleeping`  — lines 50-53, before/inside `time.Sleep`;
* `acquiring` — blocked at `notificationSem <- struct{}{}` (line 56);
* `handing`   — slot held, blocked at `n.Notifier <- notif` (line 58);
* `finishing` — handoff accepted, about to run the critical section of lines
  60-67 (`mutex.Lock; CompletionStatus = true; <-notificationSem; Unlock` —
  the semaphore release at line 66 happens before the deferred unlock, so the
  flip and the release form one critical section, modelled as one step);
* `done`      — returned. -/
inductive WaiterPC
  | sleeping
  | acquiring
  | handing
  | finishing
  | done
deriving DecidableEq, Repr

/-- One `monitorAndSend` goroutine: the reference to its notification record
and its program counter. -/
structure Waiter where
  ref : Nat
  pc : WaiterPC
deriving DecidableEq, Repr

/-- Program counter of the single `monitorFunc` consumer loop
(src/notifications.go lines 79-100):
* `idle`       — at `for notif := range notifier`, waiting to receive;
* `delivering` — received `notif`, inside the delivery section (lines 82-96);
* `removing`   — delivery attempt finished, about to run
  `scheduler.RemoveNotification(notif.Id)` (line 98). -/
inductive DispPC
  | idle
  | delivering (ref : Nat)
  | removing (ref : Nat)
deriving DecidableEq, Repr

/-- One entry of the delivery audit log: which record the dispatcher started
delivering, at which instant the dispatcher received it, and whether the
delivery call has returned.  The log is a ghost component recording the
history of delivery-section occupancy. -/
structure DeliveryRec where
  ref : Nat
  startTime : Nat
  finished : Bool
deriving DecidableEq, Repr

/-- Global state of the scheduler system: the clock, the record heap, the
`Notifs` registry, the live waiter goroutines, the semaphore occupancy
(`len(notificationSem)`), the dispatcher loop's program counter, and the
ghost delivery log. -/
structure SysState where
  time : Nat
  heap : List ScheduledNotification
  Notifs : NotifMap
  waiters : List Waiter
  semCount : Nat
  disp : DispPC
  log : List DeliveryRec

/-- State after `startSchedulingNotifications` + `go monitorFunc()` in main:
empty registry (`NewNotificationScheduler`), no waiters, empty semaphore,
dispatcher blocked on the empty channel. -/
def initState : SysState :=
  { time := 0, heap := [], Notifs := fun _ => none, waiters := [],
    semCount := 0, disp := .idle, log := [] }

/-- Replace the program counter of waiter `i` (no-op if out of range). -/
def setPC (ws : List Waiter) (i : Nat) (pc : WaiterPC) : List Waiter :=
  match ws[i]? with
  | some w => ws.set i { w with pc := pc }
  | none => ws

/-- Clock advance (environment step). -/
def tickState (s : SysState) : SysState := { s with time := s.time + 1 }

/-- `AddNotification` as a system step: the caller constructs the record
(struct literal with `CompletionStatus` and `Id` at their zero values `false`
and `""`, as at src/main.go lines 292 and 835), then lines 38-47 run: the id
from `gonanoid.New()` overwrites `Id`, the record is inserted under the
mutex, and `go n.monitorAndSend(notif)` spawns the waiter before the mutex is
released.  `genId` is the oracle value returned by the generator. -/
def addState (s : SysState) (msg : Option Message) (mmsg : Option MulticastMessage)
    (sched : Nat) (genId : String) : SysState :=
  let ref := s.heap.length
  let p := AddNotification (s.heap ++ [⟨"", msg, mmsg, sched, false⟩]) s.Notifs ref genId
  { s with heap := p.1, Notifs := p.2, waiters := s.waiters ++ [⟨ref, .sleeping⟩] }

/-- Waiter `i` passes the delay (lines 50-53): enabled exactly when the clock
has reached `ScheduledTime` (`time.Sleep` ends; or `After(now)` was already
false and no sleep happened). -/
def wakeState (s : SysState) (i : Nat) : SysState :=
  { s with waiters := setPC s.waiters i .acquiring }

/-- Waiter `i` acquires a semaphore slot (line 56): enabled only while the
buffered channel has room, i.e. `semCount < maxConcurrentNotifications`. -/
def acquireState (s : SysState) (i : Nat) : SysState :=
  { s with waiters := setPC s.waiters i .handing, semCount := s.semCount + 1 }

/-- Rendezvous on the unbuffered `notifier` channel: waiter `i`'s send at
line 58 completes together with the dispatcher's receive at line 80.  The
dispatcher enters its delivery section; the ghost log records the start. -/
def handoffState (s : SysState) (i : Nat) : SysState :=
  match s.waiters[i]? with
  | some w =>
      { s with waiters := setPC s.waiters i .finishing,
               disp := .delivering w.ref,
               log := s.log ++ [⟨w.ref, s.time, false⟩] }
  | none => s

/-- Set `CompletionStatus := true` on the record at `ref` (line 63). -/
def markCompleted (heap : List ScheduledNotification) (ref : Nat) :
    List ScheduledNotification :=
  match heap[ref]? with
  | some r => heap.set ref { r with CompletionStatus := true }
  | none => heap

/-- Waiter `i` runs the critical section of lines 60-67: under the mutex it
flips `CompletionStatus` and releases the semaphore slot (`<-notificationSem`
at line 66 executes before the deferred unlock, so both happen in the same
critical section = one atomic step). -/
def finishState (s : SysState) (i : Nat) : SysState :=
  match s.waiters[i]? with
  | some w =>
      { s with waiters := setPC s.waiters i .done,
               heap := markCompleted s.heap w.ref,
               semCount := s.semCount - 1 }
  | none => s

/-- Mark the delivery call that is in progress (the last log entry) as
returned. -/
def markLastFinished (log : List DeliveryRec) : List DeliveryRec :=
  match log.getLast? with
  | some e => log.dropLast ++ [{ e with finished := true }]
  | none => log

/-- The dispatcher's delivery call (lines 82-96) returns: the send branch ran
(its choice is `dispatchOnce`; an error outcome is only logged) and the loop
proceeds to line 98. -/
def deliverState (s : SysState) (ref : Nat) : SysState :=
  { s with disp := .removing ref, log := markLastFinished s.log }

/-- `scheduler.RemoveNotification(notif.Id)` (line 98), then the loop returns
to the channel receive. -/
def removeState (s : SysState) (targetId : String) : SysState :=
  { s with Notifs := RemoveNotification s.Notifs targetId, disp := .idle }

/-- An external `RemoveNotification(target)` call (administrative
cancellation), runnable at any time. -/
def removeExtState (s : SysState) (target : String) : SysState :=
  { s with Notifs := RemoveNotification s.Notifs target }

/-- Interleaving small-step semantics of the scheduler system.  Each
constructor is one atomic step of one component; guards are the enabling
conditions of the corresponding Go synchronisation point. -/
inductive Step : SysState → SysState → Prop
  | tick (s : SysState) : Step s (tickState s)
  | add (s : SysState) (msg : Option Message) (mmsg : Option MulticastMessage)
      (sched : Nat) (genId : String) :
      Step s (addState s msg mmsg sched genId)
  | wake (s : SysState) (i : Nat) (w : Waiter) (r : ScheduledNotification)
      (hw : s.waiters[i]? = some w) (hpc : w.pc = .sleeping)
      (hr : s.heap[w.ref]? = some r) (ht : r.ScheduledTime ≤ s.time) :
      Step s (wakeState s i)
  | acquire (s : SysState) (i : Nat) (w : Waiter)
      (hw : s.waiters[i]? = some w) (hpc : w.pc = .acquiring)
      (hsem : s.semCount < maxConcurrentNotifications) :
      Step s (acquireState s i)
  | handoff (s : SysState) (i : Nat) (w : Waiter)
      (hw : s.waiters[i]? = some w) (hpc : w.pc = .handing)
      (hd : s.disp = .idle) :
      Step s (handoffState s i)
  | finish (s : SysState) (i : Nat) (w : Waiter)
      (hw : s.waiters[i]? = some w) (hpc : w.pc = .finishing) :
      Step s (finishState s i)
  | deliver (s : SysState) (ref : Nat) (outcome : DeliveryOutcome)
      (hd : s.disp = .delivering ref) :
      Step s (deliverState s ref)
  | remove (s : SysState) (ref : Nat) (r : ScheduledNotification)
      (hd : s.disp = .removing ref) (hr : s.heap[ref]? = some r) :
      Step s (removeState s r.Id)
  | removeExt (s : SysState) (target : String) :
      Step s (removeExtState s target)

/-- States reachable from system start. -/
inductive Reachable : SysState → Prop
  | init : Reachable initState
  | step {s s' : SysState} : Reachable s → Step s s' → Reachable s'

/-- A waiter holds a semaphore slot exactly between the acquire at line 56
and the release at line 66. -/
def holdsSlot (w : Waiter) : Bool :=
  match w.pc with
  | .handing => true
  | .finishing => true
  | _ => false

/-! ### Helper lemmas about `setPC`, `countP` and `markCompleted` -/

theorem countP_set (p : α → Bool) :
    ∀ (l : List α) (i : Nat) (a b : α), l[i]? = some a →
      (l.set i b).countP p + (if p a then 1 else 0) =
        l.countP p + (if p b then 1 else 0) := by
  intro l
  induction l with
  | nil => intro i a b h; simp at h
  | cons x xs ih =>
    intro i a b h
    cases i with
    | zero =>
      simp only [List.getElem?_cons_zero, Option.some.injEq] at h
      subst h
      simp only [List.set_cons_zero, List.countP_cons]
      omega
    | succ n =>
      simp only [List.getElem?_cons_succ] at h
      simp only [List.set_cons_succ, List.countP_cons]
      have := ih n a b h
      omega

theorem setPC_length (ws : List Waiter) (i : Nat) (pc : WaiterPC) :
    (setPC ws i pc).length = ws.length := by
  unfold setPC
  cases h : ws[i]? <;> simp

theorem setPC_getElem_self {ws : List Waiter} {i : Nat} {w : Waiter}
    (pc : WaiterPC) (h : ws[i]? = some w) :
    (setPC ws i pc)[i]? = some { w with pc := pc } := by
  unfold setPC
  rw [h]
  have hlt : i < ws.length := by
    rcases List.getElem?_eq_some_iff.mp h with ⟨hl, _⟩
    exact hl
  exact List.getElem?_set_self hlt

theorem setPC_getElem_ne {ws : List Waiter} {i j : Nat} (pc : WaiterPC)
    (hne : i ≠ j) : (setPC ws i pc)[j]? = ws[j]? := by
  unfold setPC
  cases h : ws[i]? with
  | none => rfl
  | some w => exact List.getElem?_set_ne hne

theorem mem_setPC {ws : List Waiter} {i : Nat} {pc : WaiterPC} {w' : Waiter}
    (h : w' ∈ setPC ws i pc) :
    w' ∈ ws ∨ ∃ w, ws[i]? = some w ∧ w' = { w with pc := pc } := by
  unfold setPC at h
  cases hw : ws[i]? with
  | none => rw [hw] at h; exact Or.inl h
  | some w =>
    rw [hw] at h
    rcases List.mem_or_eq_of_mem_set h with hmem | heq
    · exact Or.inl hmem
    · exact Or.inr ⟨w, rfl, heq⟩

theorem map_ref_setPC (ws : List Waiter) (i : Nat) (pc : WaiterPC) :
    (setPC ws i pc).map Waiter.ref = ws.map Waiter.ref := by
  unfold setPC
  cases h : ws[i]? with
  | none => rfl
  | some w =>
    rw [List.map_set]
    apply List.ext_getElem?
    intro n
    by_cases hn : i = n
    · subst hn
      have hlt : i < ws.length := (List.getElem?_eq_some_iff.mp h).1
      rw [List.getElem?_set_self (by simpa using hlt), List.getElem?_map, h]
      rfl
    · exact List.getElem?_set_ne hn

theorem countP_setPC (p : Waiter → Bool) {ws : List Waiter} {i : Nat}
    {w : Waiter} (pc : WaiterPC) (h : ws[i]? = some w) :
    (setPC ws i pc).countP p + (if p w then 1 else 0) =
      ws.countP p + (if p { w with pc := pc } then 1 else 0) := by
  unfold setPC
  rw [h]
  exact countP_set p ws i w { w with pc := pc } h

theorem markCompleted_length (heap : List ScheduledNotification) (ref : Nat) :
    (markCompleted heap ref).length = heap.length := by
  unfold markCompleted
  cases h : heap[ref]? <;> simp

theorem markCompleted_getElem_ne (heap : List ScheduledNotification)
    {ref x : Nat} (h : ref ≠ x) : (markCompleted heap ref)[x]? = heap[x]? := by
  unfold markCompleted
  cases hr : heap[ref]? with
  | none => rfl
  | some r => exact List.getElem?_set_ne h

theorem markCompleted_getElem_self {heap : List ScheduledNotification}
    {ref : Nat} {r : ScheduledNotification} (h : heap[ref]? = some r) :
    (markCompleted heap ref)[ref]? = some { r with CompletionStatus := true } := by
  unfold markCompleted
  rw [h]
  exact List.getElem?_set_self (List.getElem?_eq_some_iff.mp h).1

/-- `markCompleted` never changes `ScheduledTime` (nor existence) of any record. -/
theorem markCompleted_sched (heap : List ScheduledNotification) (ref x : Nat) :
    ((markCompleted heap ref)[x]?).map ScheduledNotification.ScheduledTime =
      (heap[x]?).map ScheduledNotification.ScheduledTime := by
  by_cases hx : ref = x
  · subst hx
    cases hr : heap[ref]? with
    | none => simp [markCompleted, hr]
    | some r => simp [markCompleted_getElem_self hr, hr]
  · rw [markCompleted_getElem_ne heap hx]

theorem sched_preserved {heap : List ScheduledNotification} {ref x : Nat}
    {r : ScheduledNotification} (h : heap[x]? = some r) :
    ∃ r', (markCompleted heap ref)[x]? = some r' ∧
      r'.ScheduledTime = r.ScheduledTime := by
  have hmap := markCompleted_sched heap ref x
  rw [h] at hmap
  cases hm : (markCompleted heap ref)[x]? with
  | none => rw [hm] at hmap; simp at hmap
  | some r' =>
    rw [hm] at hmap
    simp at hmap
    exact ⟨r', rfl, hmap⟩

/-- Unfolded form of `addState`. -/
theorem addState_eq (s : SysState) (msg : Option Message)
    (mmsg : Option MulticastMessage) (sched : Nat) (genId : String) :
    addState s msg mmsg sched genId =
      { s with heap := s.heap ++ [⟨genId, msg, mmsg, sched, false⟩],
               Notifs := mapInsert s.Notifs genId s.heap.length,
               waiters := s.waiters ++ [⟨s.heap.length, .sleeping⟩] } := by
  simp only [addState, AddNotification]
  rw [List.getElem?_concat_length]
  simp [List.set_append_right]

/-- Unfolded form of `handoffState` when waiter `i` exists. -/
theorem handoffState_eq {s : SysState} {i : Nat} {w : Waiter}
    (hw : s.waiters[i]? = some w) :
    handoffState s i =
      { s with waiters := setPC s.waiters i .finishing,
               disp := .delivering w.ref,
               log := s.log ++ [⟨w.ref, s.time, false⟩] } := by
  unfold handoffState
  rw [hw]

/-- Unfolded form of `finishState` when waiter `i` exists. -/
theorem finishState_eq {s : SysState} {i : Nat} {w : Waiter}
    (hw : s.waiters[i]? = some w) :
    finishState s i =
      { s with waiters := setPC s.waiters i .done,
               heap := markCompleted s.heap w.ref,
               semCount := s.semCount - 1 } := by
  unfold finishState
  rw [hw]

theorem markLastFinished_concat (l : List DeliveryRec) (e : DeliveryRec) :
    markLastFinished (l ++ [e]) = l ++ [{ e with finished := true }] := by
  unfold markLastFinished
  rw [List.getLast?_concat, List.dropLast_concat]

/-! ### The reachability invariant -/

/-- Inductive invariant of the system, summarising the shared-state
discipline of the scheduler:
* `semEq` — the semaphore occupancy equals the number of waiters between the
  acquire (line 56) and the release (line 66);
* `semLe` — the buffered channel never holds more than its capacity;
* `refsLt`, `refsNodup` — each waiter points at a live record, and no two
  waiters share a record;
* `awake` — a waiter past its `time.Sleep` has a record whose
  `ScheduledTime` has passed;
* `logSched` — every delivery the dispatcher ever received started no
  earlier than the record's `ScheduledTime`;
* `logOpen` — at most the most recent delivery is still in progress, and
  only while the dispatcher is inside its delivery section;
* `compDone` — a record marked completed belongs to a waiter that has
  already released its slot and returned. -/
structure SysInv (s : SysState) : Prop where
  semEq : s.semCount = s.waiters.countP holdsSlot
  semLe : s.semCount ≤ maxConcurrentNotifications
  refsLt : ∀ (j : Nat) (w : Waiter), s.waiters[j]? = some w → w.ref < s.heap.length
  refsNodup : (s.waiters.map Waiter.ref).Nodup
  awake : ∀ (j : Nat) (w : Waiter), s.waiters[j]? = some w → w.pc ≠ .sleeping →
    ∃ r, s.heap[w.ref]? = some r ∧ r.ScheduledTime ≤ s.time
  logSched : ∀ e ∈ s.log, ∃ r, s.heap[e.ref]? = some r ∧
    r.ScheduledTime ≤ e.startTime
  logOpen : match s.disp with
    | .delivering _ => ∃ l e, s.log = l ++ [e] ∧
        (∀ x ∈ l, x.finished = true) ∧ e.finished = false
    | _ => ∀ e ∈ s.log, e.finished = true
  compDone : ∀ (j : Nat) (w : Waiter), s.waiters[j]? = some w →
    ∀ r, s.heap[w.ref]? = some r → r.CompletionStatus = true → w.pc = .done

theorem inv_init : SysInv initState := by
  refine ⟨?_, ?_, ?_, ?_, ?_, ?_, ?_, ?_⟩ <;>
    simp [initState, maxConcurrentNotifications]

theorem getElem?_concat_cases {α : Type} {l : List α} {a b : α} {j : Nat}
    (h : (l ++ [a])[j]? = some b) : l[j]? = some b ∨ (j = l.length ∧ b = a) := by
  rcases Nat.lt_or_ge j l.length with hj | hj
  · left
    rwa [List.getElem?_append_left hj] at h
  · right
    rw [List.getElem?_append_right hj] at h
    cases hd : j - l.length with
    | zero =>
      rw [hd] at h
      simp only [List.getElem?_cons_zero, Option.some.injEq] at h
      exact ⟨by omega, h.symm⟩
    | succ n =>
      rw [hd] at h
      simp at h

theorem inv_tick {s : SysState} (h : SysInv s) : SysInv (tickState s) := by
  obtain ⟨semEq, semLe, refsLt, refsNodup, awake, logSched, logOpen, compDone⟩ := h
  refine ⟨semEq, semLe, refsLt, refsNodup, ?_, logSched, logOpen, compDone⟩
  intro j w hw hpc
  obtain ⟨r, hr, hle⟩ := awake j w hw hpc
  exact ⟨r, hr, Nat.le_succ_of_le hle⟩

theorem inv_add {s : SysState} (h : SysInv s) (msg : Option Message)
    (mmsg : Option MulticastMessage) (sched : Nat) (genId : String) :
    SysInv (addState s msg mmsg sched genId) := by
  obtain ⟨semEq, semLe, refsLt, refsNodup, awake, logSched, logOpen, compDone⟩ := h
  rw [addState_eq]
  refine ⟨?_, semLe, ?_, ?_, ?_, ?_, logOpen, ?_⟩
  · show s.semCount = (s.waiters ++ [({ ref := s.heap.length, pc := .sleeping } : Waiter)]).countP holdsSlot
    rw [List.countP_append]
    simp [holdsSlot, List.countP_cons, semEq]
  · intro j w hw
    show w.ref < (s.heap ++ [({ Id := genId, Message := msg, MulticastMessage := mmsg, ScheduledTime := sched, CompletionStatus := false } : ScheduledNotification)]).length
    simp only [List.length_append, List.length_cons, List.length_nil]
    rcases getElem?_concat_cases hw with h1 | ⟨hj, hb⟩
    · have := refsLt j w h1
      omega
    · subst hb
      simp only []
      omega
  · show ((s.waiters ++ [({ ref := s.heap.length, pc := .sleeping } : Waiter)]).map Waiter.ref).Nodup
    rw [List.map_append, List.nodup_append]
    refine ⟨refsNodup, by simp, ?_⟩
    intro a ha hb
    simp only [List.map_cons, List.map_nil, List.mem_singleton] at hb
    obtain ⟨w, hwmem, hwref⟩ := List.mem_map.mp ha
    obtain ⟨j, hj⟩ := List.mem_iff_getElem?.mp hwmem
    have := refsLt j w hj
    omega
  · intro j w hw hpc
    rcases getElem?_concat_cases hw with h1 | ⟨hj, hb⟩
    · obtain ⟨r, hr, hle⟩ := awake j w h1 hpc
      refine ⟨r, ?_, hle⟩
      have hlt : w.ref < s.heap.length := refsLt j w h1
      show (s.heap ++ [({ Id := genId, Message := msg, MulticastMessage := mmsg, ScheduledTime := sched, CompletionStatus := false } : ScheduledNotification)])[w.ref]? = some r
      rw [List.getElem?_append_left hlt]
      exact hr
    · subst hb
      exact absurd rfl hpc
  · intro e he
    obtain ⟨r, hr, hle⟩ := logSched e he
    have hlt : e.ref < s.heap.length := (List.getElem?_eq_some_iff.mp hr).1
    refine ⟨r, ?_, hle⟩
    show (s.heap ++ [({ Id := genId, Message := msg, MulticastMessage := mmsg, ScheduledTime := sched, CompletionStatus := false } : ScheduledNotification)])[e.ref]? = some r
    rw [List.getElem?_append_left hlt]
    exact hr
  · intro j w hw r hr htrue
    rcases getElem?_concat_cases hw with h1 | ⟨hj, hb⟩
    · have hlt : w.ref < s.heap.length := refsLt j w h1
      rw [List.getElem?_append_left hlt] at hr
      exact compDone j w h1 r hr htrue
    · subst hb
      rw [List.getElem?_concat_length] at hr
      have hrec : r = ⟨genId, msg, mmsg, sched, false⟩ := by
        injection hr with h
        exact h.symm
      rw [hrec] at htrue
      simp at htrue

theorem setPC_cases {ws : List Waiter} {i j : Nat} {w w' : Waiter} {pc : WaiterPC}
    (hw : ws[i]? = some w) (hw' : (setPC ws i pc)[j]? = some w') :
    (j = i ∧ w' = { w with pc := pc }) ∨ (j ≠ i ∧ ws[j]? = some w') := by
  by_cases hj : j = i
  · subst hj
    rw [setPC_getElem_self pc hw] at hw'
    left
    refine ⟨rfl, ?_⟩
    injection hw' with h
    exact h.symm
  · right
    refine ⟨hj, ?_⟩
    rwa [setPC_getElem_ne pc (Ne.symm hj)] at hw'

theorem inv_wake {s : SysState} (h : SysInv s) {i : Nat} {w : Waiter}
    {r0 : ScheduledNotification} (hw : s.waiters[i]? = some w)
    (hpc : w.pc = .sleeping) (hr0 : s.heap[w.ref]? = some r0)
    (ht : r0.ScheduledTime ≤ s.time) : SysInv (wakeState s i) := by
  obtain ⟨semEq, semLe, refsLt, refsNodup, awake, logSched, logOpen, compDone⟩ := h
  have hcnt := countP_setPC holdsSlot .acquiring hw
  simp [holdsSlot, hpc] at hcnt
  refine ⟨?_, semLe, ?_, ?_, ?_, logSched, logOpen, ?_⟩
  · show s.semCount = (setPC s.waiters i .acquiring).countP holdsSlot
    omega
  · intro j w' hw'
    rcases setPC_cases hw hw' with ⟨hj, hval⟩ | ⟨hj, hold⟩
    · subst hval
      exact refsLt i w hw
    · exact refsLt j w' hold
  · show ((setPC s.waiters i .acquiring).map Waiter.ref).Nodup
    rw [map_ref_setPC]
    exact refsNodup
  · intro j w' hw' hpc'
    rcases setPC_cases hw hw' with ⟨hj, hval⟩ | ⟨hj, hold⟩
    · subst hval
      exact ⟨r0, hr0, ht⟩
    · exact awake j w' hold hpc'
  · intro j w' hw' r hr htrue
    rcases setPC_cases hw hw' with ⟨hj, hval⟩ | ⟨hj, hold⟩
    · subst hval
      have hdone := compDone i w hw r hr htrue
      rw [hpc] at hdone
      cases hdone
    · exact compDone j w' hold r hr htrue

theorem inv_acquire {s : SysState} (h : SysInv s) {i : Nat} {w : Waiter}
    (hw : s.waiters[i]? = some w) (hpc : w.pc = .acquiring)
    (hsem : s.semCount < maxConcurrentNotifications) :
    SysInv (acquireState s i) := by
  obtain ⟨semEq, semLe, refsLt, refsNodup, awake, logSched, logOpen, compDone⟩ := h
  have hcnt := countP_setPC holdsSlot .handing hw
  simp [holdsSlot, hpc] at hcnt
  refine ⟨?_, ?_, ?_, ?_, ?_, logSched, logOpen, ?_⟩
  · show s.semCount + 1 = (setPC s.waiters i .handing).countP holdsSlot
    omega
  · exact hsem
  · intro j w' hw'
    rcases setPC_cases hw hw' with ⟨hj, hval⟩ | ⟨hj, hold⟩
    · subst hval
      exact refsLt i w hw
    · exact refsLt j w' hold
  · show ((setPC s.waiters i .handing).map Waiter.ref).Nodup
    rw [map_ref_setPC]
    exact refsNodup
  · intro j w' hw' hpc'
    rcases setPC_cases hw hw' with ⟨hj, hval⟩ | ⟨hj, hold⟩
    · subst hval
      refine awake i w hw ?_
      rw [hpc]
      intro hcontra
      cases hcontra
    · exact awake j w' hold hpc'
  · intro j w' hw' r hr htrue
    rcases setPC_cases hw hw' with ⟨hj, hval⟩ | ⟨hj, hold⟩
    · subst hval
      have hdone := compDone i w hw r hr htrue
      rw [hpc] at hdone
      cases hdone
    · exact compDone j w' hold r hr htrue

theorem inv_handoff {s : SysState} (h : SysInv s) {i : Nat} {w : Waiter}
    (hw : s.waiters[i]? = some w) (hpc : w.pc = .handing)
    (hd : s.disp = .idle) : SysInv (handoffState s i) := by
  obtain ⟨semEq, semLe, refsLt, refsNodup, awake, logSched, logOpen, compDone⟩ := h
  have hcnt := countP_setPC holdsSlot .finishing hw
  simp [holdsSlot, hpc] at hcnt
  have hfin : ∀ x ∈ s.log, x.finished = true := by
    rw [hd] at logOpen
    exact logOpen
  have hwr := awake i w hw (by rw [hpc]; intro hc; cases hc)
  rw [handoffState_eq hw]
  refine ⟨?_, semLe, ?_, ?_, ?_, ?_, ?_, ?_⟩
  · show s.semCount = (setPC s.waiters i .finishing).countP holdsSlot
    omega
  · intro j w' hw'
    rcases setPC_cases hw hw' with ⟨hj, hval⟩ | ⟨hj, hold⟩
    · subst hval
      exact refsLt i w hw
    · exact refsLt j w' hold
  · show ((setPC s.waiters i .finishing).map Waiter.ref).Nodup
    rw [map_ref_setPC]
    exact refsNodup
  · intro j w' hw' hpc'
    rcases setPC_cases hw hw' with ⟨hj, hval⟩ | ⟨hj, hold⟩
    · subst hval
      exact hwr
    · exact awake j w' hold hpc'
  · intro e he
    rcases List.mem_append.mp he with hel | her
    · exact logSched e hel
    · simp only [List.mem_singleton] at her
      subst her
      exact hwr
  · show ∃ l e, s.log ++ [({ ref := w.ref, startTime := s.time, finished := false } : DeliveryRec)] = l ++ [e] ∧
      (∀ x ∈ l, x.finished = true) ∧ e.finished = false
    exact ⟨s.log, _, rfl, hfin, rfl⟩
  · intro j w' hw' r hr htrue
    rcases setPC_cases hw hw' with ⟨hj, hval⟩ | ⟨hj, hold⟩
    · subst hval
      have hdone := compDone i w hw r hr htrue
      rw [hpc] at hdone
      cases hdone
    · exact compDone j w' hold r hr htrue

theorem inv_finish {s : SysState} (h : SysInv s) {i : Nat} {w : Waiter}
    (hw : s.waiters[i]? = some w) (hpc : w.pc = .finishing) :
    SysInv (finishState s i) := by
  obtain ⟨semEq, semLe, refsLt, refsNodup, awake, logSched, logOpen, compDone⟩ := h
  have hcnt := countP_setPC holdsSlot .done hw
  simp [holdsSlot, hpc] at hcnt
  rw [finishState_eq hw]
  refine ⟨?_, ?_, ?_, ?_, ?_, ?_, logOpen, ?_⟩
  · show s.semCount - 1 = (setPC s.waiters i .done).countP holdsSlot
    omega
  · show s.semCount - 1 ≤ maxConcurrentNotifications
    omega
  · intro j w' hw'
    show w'.ref < (markCompleted s.heap w.ref).length
    rw [markCompleted_length]
    rcases setPC_cases hw hw' with ⟨hj, hval⟩ | ⟨hj, hold⟩
    · subst hval
      exact refsLt i w hw
    · exact refsLt j w' hold
  · show ((setPC s.waiters i .done).map Waiter.ref).Nodup
    rw [map_ref_setPC]
    exact refsNodup
  · intro j w' hw' hpc'
    rcases setPC_cases hw hw' with ⟨hj, hval⟩ | ⟨hj, hold⟩
    · subst hval
      obtain ⟨r, hr, hle⟩ := awake i w hw (by rw [hpc]; intro hc; cases hc)
      obtain ⟨r', hr', heq⟩ := sched_preserved hr
      refine ⟨r', hr', ?_⟩
      rw [heq]
      exact hle
    · obtain ⟨r, hr, hle⟩ := awake j w' hold hpc'
      obtain ⟨r', hr', heq⟩ := sched_preserved hr
      refine ⟨r', hr', ?_⟩
      rw [heq]
      exact hle
  · intro e he
    obtain ⟨r, hr, hle⟩ := logSched e he
    obtain ⟨r', hr', heq⟩ := sched_preserved hr
    refine ⟨r', hr', ?_⟩
    rw [heq]
    exact hle
  · intro j w' hw' r hr htrue
    rcases setPC_cases hw hw' with ⟨hj, hval⟩ | ⟨hj, hold⟩
    · subst hval
      rfl
    · by_cases hrefeq : w'.ref = w.ref
      · have hjlen : j < (s.waiters.map Waiter.ref).length := by
          rw [List.length_map]
          exact (List.getElem?_eq_some_iff.mp hold).1
        have hmj : (s.waiters.map Waiter.ref)[j]? = some w'.ref := by
          rw [List.getElem?_map, hold]
          rfl
        have hmi : (s.waiters.map Waiter.ref)[i]? = some w.ref := by
          rw [List.getElem?_map, hw]
          rfl
        have : j = i := by
          refine List.getElem?_inj hjlen refsNodup ?_
          rw [hmj, hmi, hrefeq]
        exact absurd this hj
      · rw [markCompleted_getElem_ne s.heap (Ne.symm hrefeq)] at hr
        exact compDone j w' hold r hr htrue

theorem inv_deliver {s : SysState} (h : SysInv s) {ref : Nat}
    (hd : s.disp = .delivering ref) : SysInv (deliverState s ref) := by
  obtain ⟨semEq, semLe, refsLt, refsNodup, awake, logSched, logOpen, compDone⟩ := h
  rw [hd] at logOpen
  obtain ⟨l, e, hlog, hl, he⟩ := logOpen
  refine ⟨semEq, semLe, refsLt, refsNodup, awake, ?_, ?_, compDone⟩
  · show ∀ x ∈ markLastFinished s.log, ∃ r, s.heap[x.ref]? = some r ∧
      r.ScheduledTime ≤ x.startTime
    rw [hlog, markLastFinished_concat]
    intro x hx
    rcases List.mem_append.mp hx with hxl | hxe
    · exact logSched x (by rw [hlog]; exact List.mem_append.mpr (Or.inl hxl))
    · simp only [List.mem_singleton] at hxe
      subst hxe
      exact logSched e (by rw [hlog]; exact List.mem_append.mpr (Or.inr (by simp)))
  · show ∀ x ∈ markLastFinished s.log, x.finished = true
    rw [hlog, markLastFinished_concat]
    intro x hx
    rcases List.mem_append.mp hx with hxl | hxe
    · exact hl x hxl
    · simp only [List.mem_singleton] at hxe
      subst hxe
      rfl

theorem inv_remove {s : SysState} (h : SysInv s) {ref : Nat}
    (hd : s.disp = .removing ref) (targetId : String) :
    SysInv (removeState s targetId) := by
  obtain ⟨semEq, semLe, refsLt, refsNodup, awake, logSched, logOpen, compDone⟩ := h
  rw [hd] at logOpen
  exact ⟨semEq, semLe, refsLt, refsNodup, awake, logSched, logOpen, compDone⟩

theorem inv_removeExt {s : SysState} (h : SysInv s) (target : String) :
    SysInv (removeExtState s target) := by
  obtain ⟨semEq, semLe, refsLt, refsNodup, awake, logSched, logOpen, compDone⟩ := h
  exact ⟨semEq, semLe, refsLt, refsNodup, awake, logSched, logOpen, compDone⟩

theorem inv_step {s s' : SysState} (h : SysInv s) (hs : Step s s') : SysInv s' := by
  cases hs with
  | tick => exact inv_tick h
  | add msg mmsg sched genId => exact inv_add h msg mmsg sched genId
  | wake i w r hw hpc hr ht => exact inv_wake h hw hpc hr ht
  | acquire i w hw hpc hsem => exact inv_acquire h hw hpc hsem
  | handoff i w hw hpc hd => exact inv_handoff h hw hpc hd
  | finish i w hw hpc => exact inv_finish h hw hpc
  | deliver ref outcome hd => exact inv_deliver h hd
  | remove ref r hd hr => exact inv_remove h hd r.Id
  | removeExt target => exact inv_removeExt h target

theorem inv_reachable {s : SysState} (h : Reachable s) : SysInv s := by
  induction h with
  | init => exact inv_init
  | step _ hs ih => exact inv_step ih hs

/-! ### Concrete executions used to instantiate the theorems -/

def msgW : Message := ⟨"tokA"⟩

/-- A notification added at time 0, scheduled for time 0. -/
def sA : SysState := addState initState (some msgW) none 0 "nid1"

/-- Its waiter has passed the (empty) delay. -/
def sW : SysState := wakeState sA 0

/-- Its waiter holds a semaphore slot. -/
def sQ : SysState := acquireState sW 0

/-- Its waiter has handed the notification to the dispatcher. -/
def sH : SysState := handoffState sQ 0

/-- Its waiter has flipped `CompletionStatus` and released the slot. -/
def sF : SysState := finishState sH 0

theorem reachable_sA : Reachable sA :=
  Reachable.step Reachable.init (Step.add initState (some msgW) none 0 "nid1")

theorem reachable_sW : Reachable sW :=
  Reachable.step reachable_sA
    (Step.wake sA 0 ⟨0, .sleeping⟩ ⟨"nid1", some msgW, none, 0, false⟩
      (by decide) rfl (by decide) (by decide))

theorem reachable_sQ : Reachable sQ :=
  Reachable.step reachable_sW
    (Step.acquire sW 0 ⟨0, .acquiring⟩ (by decide) rfl (by decide))

theorem reachable_sH : Reachable sH :=
  Reachable.step reachable_sQ
    (Step.handoff sQ 0 ⟨0, .handing⟩ (by decide) rfl (by decide))

theorem reachable_sF : Reachable sF :=
  Reachable.step reachable_sH
    (Step.finish sH 0 ⟨0, .finishing⟩ (by decide) rfl)

/-! ### The claims -/

/-- C1: in every reachable state of the scheduler, the number of waiters
between semaphore acquisition (line 56) and semaphore release (line 66)
never exceeds the configured gate capacity — the constant
`maxConcurrentNotifications`, which is 3600 in the source — and neither
does the occupancy of the semaphore channel itself. -/
theorem gate_capacity_never_exceeded (s : SysState) (h : Reachable s) :
    s.waiters.countP holdsSlot ≤ maxConcurrentNotifications ∧
    s.semCount ≤ maxConcurrentNotifications ∧
    maxConcurrentNotifications = 3600 := by
  have inv := inv_reachable h
  have h1 := inv.semEq
  have h2 := inv.semLe
  exact ⟨by omega, h2, rfl⟩

theorem gate_capacity_never_exceeded_witness :
    sH.waiters.countP holdsSlot ≤ maxConcurrentNotifications ∧
    sH.semCount ≤ maxConcurrentNotifications ∧
    maxConcurrentNotifications = 3600 :=
  gate_capacity_never_exceeded sH reachable_sH

/-- C2: no early dispatch.  In every reachable state: (a) every waiter that
has passed its `time.Sleep` (lines 50-53) belongs to a record whose
`ScheduledTime` is at or before the current time, so gate admission and
handoff happen only after the wait; (b) every delivery the dispatcher ever
received started at or after the record's `ScheduledTime`; (c) a sleeping
waiter's wake step is enabled as soon as — including exactly when — the
clock reaches `ScheduledTime`, so a `scheduled_time` at or before now
incurs no wait. -/
theorem no_early_dispatch (s : SysState) (h : Reachable s) :
    (∀ (j : Nat) (w : Waiter), s.waiters[j]? = some w → w.pc ≠ .sleeping →
      ∃ r, s.heap[w.ref]? = some r ∧ r.ScheduledTime ≤ s.time) ∧
    (∀ e ∈ s.log, ∃ r, s.heap[e.ref]? = some r ∧
      r.ScheduledTime ≤ e.startTime) ∧
    (∀ (i : Nat) (w : Waiter) (r : ScheduledNotification),
      s.waiters[i]? = some w → w.pc = .sleeping → s.heap[w.ref]? = some r →
      r.ScheduledTime ≤ s.time → Step s (wakeState s i)) := by
  have inv := inv_reachable h
  exact ⟨inv.awake, inv.logSched,
    fun i w r hw hpc hr ht => Step.wake s i w r hw hpc hr ht⟩

theorem no_early_dispatch_witness :
    ∃ r, sH.heap[(⟨0, 0, false⟩ : DeliveryRec).ref]? = some r ∧
      r.ScheduledTime ≤ (⟨0, 0, false⟩ : DeliveryRec).startTime :=
  (no_early_dispatch sH reachable_sH).2.1 ⟨0, 0, false⟩ (by decide)

/-- C6: serialized delivery.  All deliveries are performed by the single
consumer loop (`monitorFunc`), modelled by the one dispatcher component; in
every reachable state at most one delivery call is in progress, no matter
how many waiters are due at once. -/
theorem delivery_serialized (s : SysState) (h : Reachable s) :
    s.log.countP (fun e => !e.finished) ≤ 1 := by
  have inv := inv_reachable h
  have hlo := inv.logOpen
  cases hd : s.disp with
  | idle =>
    rw [hd] at hlo
    have : s.log.countP (fun e => !e.finished) = 0 := by
      rw [List.countP_eq_zero]
      intro e he
      simp [hlo e he]
    omega
  | delivering ref =>
    rw [hd] at hlo
    obtain ⟨l, e, hlog, hl, he⟩ := hlo
    rw [hlog, List.countP_append]
    have h0 : l.countP (fun e => !e.finished) = 0 := by
      rw [List.countP_eq_zero]
      intro x hx
      simp [hl x hx]
    rw [h0, List.countP_singleton]
    split <;> simp
  | removing ref =>
    rw [hd] at hlo
    have : s.log.countP (fun e => !e.finished) = 0 := by
      rw [List.countP_eq_zero]
      intro e he
      simp [hlo e he]
    omega

theorem delivery_serialized_witness :
    sH.log.countP (fun e => !e.finished) ≤ 1 :=
  delivery_serialized sH reachable_sH

theorem flip_contra {heap : List ScheduledNotification} {ref : Nat}
    {r r' : ScheduledNotification} (hr : heap[ref]? = some r)
    (hr' : heap[ref]? = some r') (hfalse : r.CompletionStatus = false)
    (htrue : r'.CompletionStatus = true) : False := by
  rw [hr] at hr'
  injection hr' with hrr
  rw [← hrr, hfalse] at htrue
  cases htrue

/-- C7: the `CompletionStatus` flip and the slot release.  In every
reachable state, a waiter whose record is marked completed has returned
(`pc = done`) and holds no gate slot; moreover any step of the system that
flips a record's `CompletionStatus` from false to true releases one
semaphore slot in that same atomic step (the critical section of lines
60-67, which holds the Registry mutex throughout). -/
theorem completed_flip_releases_slot (s : SysState) (h : Reachable s) :
    (∀ (j : Nat) (w : Waiter), s.waiters[j]? = some w →
      ∀ r, s.heap[w.ref]? = some r → r.CompletionStatus = true →
        w.pc = .done ∧ holdsSlot w = false) ∧
    (∀ (s' : SysState) (ref : Nat) (r r' : ScheduledNotification),
      Step s s' → s.heap[ref]? = some r → s'.heap[ref]? = some r' →
      r.CompletionStatus = false → r'.CompletionStatus = true →
      s'.semCount + 1 = s.semCount) := by
  have inv := inv_reachable h
  constructor
  · intro j w hw r hr htrue
    have hdone := inv.compDone j w hw r hr htrue
    refine ⟨hdone, ?_⟩
    rw [holdsSlot, hdone]
  · intro s' ref r r' hs hr hr' hfalse htrue
    cases hs with
    | tick =>
      exact ((flip_contra hr (show s.heap[ref]? = some r' from hr') hfalse htrue)).elim
    | add msg mmsg sched genId =>
      rw [addState_eq] at hr'
      have hlt : ref < s.heap.length := (List.getElem?_eq_some_iff.mp hr).1
      have hr2 : (s.heap ++ [⟨genId, msg, mmsg, sched, false⟩])[ref]? = some r' := hr'
      rw [List.getElem?_append_left hlt] at hr2
      exact ((flip_contra hr hr2 hfalse htrue)).elim
    | wake i w0 r0 hw hpc hr0 ht =>
      exact ((flip_contra hr (show s.heap[ref]? = some r' from hr') hfalse htrue)).elim
    | acquire i w0 hw hpc hsem =>
      exact ((flip_contra hr (show s.heap[ref]? = some r' from hr') hfalse htrue)).elim
    | handoff i w0 hw hpc hd =>
      rw [handoffState_eq hw] at hr'
      exact ((flip_contra hr (show s.heap[ref]? = some r' from hr') hfalse htrue)).elim
    | finish i w0 hw hpc =>
      rw [finishState_eq hw]
      show s.semCount - 1 + 1 = s.semCount
      have hmem : w0 ∈ s.waiters := List.getElem?_mem hw
      have hpos : 0 < s.waiters.countP holdsSlot := by
        rw [List.countP_pos_iff]
        exact ⟨w0, hmem, by rw [holdsSlot, hpc]⟩
      have hsem := inv.semEq
      omega
    | deliver ref0 outcome hd =>
      exact ((flip_contra hr (show s.heap[ref]? = some r' from hr') hfalse htrue)).elim
    | remove ref0 r0 hd hr0 =>
      exact ((flip_contra hr (show s.heap[ref]? = some r' from hr') hfalse htrue)).elim
    | removeExt target =>
      exact ((flip_contra hr (show s.heap[ref]? = some r' from hr') hfalse htrue)).elim

theorem completed_flip_releases_slot_witness :
    ((⟨0, .done⟩ : Waiter).pc = .done ∧ holdsSlot ⟨0, .done⟩ = false) ∧
    sF.semCount + 1 = sH.semCount :=
  ⟨(completed_flip_releases_slot sF reachable_sF).1 0 ⟨0, .done⟩ (by decide)
      ⟨"nid1", some msgW, none, 0, true⟩ (by decide) (by decide),
   (completed_flip_releases_slot sH reachable_sH).2 sF 0
      ⟨"nid1", some msgW, none, 0, false⟩ ⟨"nid1", some msgW, none, 0, true⟩
      (Step.finish sH 0 ⟨0, .finishing⟩ (by decide) rfl)
      (by decide) (by decide) (by decide) (by decide)⟩

/-- Empty registry map, used for concrete instances. -/
def emptyMap : NotifMap := fun _ => none

/-- C3: the dispatcher removes the Registry entry for every notification it
receives regardless of outcome — successful delivery, delivery-client error
(only logged, not retried, not re-enqueued, not propagated: `dispatchOnce`
is total and returns no error), or neither payload variant populated (error
logged, no delivery call attempted, and the loop body still runs to the
removal, so the consumer loop does not crash).  The Registry never retains
the entry after the attempt. -/
theorem dispatcher_always_removes_entry (m : NotifMap)
    (notif : ScheduledNotification) (outcome : DeliveryOutcome) :
    (dispatchOnce m notif outcome).1 notif.Id = none ∧
    (notif.Message = none → notif.MulticastMessage = none →
      (dispatchOnce m notif outcome).2 = SendCall.noSend) := by
  constructor
  · cases hm : notif.Message <;> cases hmm : notif.MulticastMessage <;>
      cases outcome <;> simp [dispatchOnce, hm, hmm, RemoveNotification]
  · intro h1 h2
    simp [dispatchOnce, h1, h2]

theorem dispatcher_always_removes_entry_witness :
    (dispatchOnce emptyMap ⟨"x", none, none, 0, false⟩ .ok).1 "x" = none ∧
    (dispatchOnce emptyMap ⟨"x", none, none, 0, false⟩ .ok).2 =
      SendCall.noSend :=
  ⟨(dispatcher_always_removes_entry emptyMap ⟨"x", none, none, 0, false⟩ .ok).1,
   (dispatcher_always_removes_entry emptyMap ⟨"x", none, none, 0, false⟩ .ok).2
     rfl rfl⟩

/-- C4: `AddNotification` as a system step: the generated id is written into
a record whose `CompletionStatus` is false (the caller's struct literal
leaves it at the zero value), the record is inserted into the Registry
under the mutex, and the waiter is spawned afterwards inside the same
critical section — so the entry is present (and no other key is disturbed)
while the new waiter is still at its initial program point, before it runs.
The step carries no enabling guard: it is possible in every state, never
blocking on the delay or on the gate. -/
theorem add_registers_before_waiter (s : SysState) (msg : Option Message)
    (mmsg : Option MulticastMessage) (sched : Nat) (genId : String) :
    Step s (addState s msg mmsg sched genId) ∧
    (addState s msg mmsg sched genId).Notifs genId = some s.heap.length ∧
    (addState s msg mmsg sched genId).heap[s.heap.length]? =
      some ⟨genId, msg, mmsg, sched, false⟩ ∧
    (addState s msg mmsg sched genId).waiters =
      s.waiters ++ [⟨s.heap.length, .sleeping⟩] ∧
    (∀ k, k ≠ genId →
      (addState s msg mmsg sched genId).Notifs k = s.Notifs k) := by
  refine ⟨Step.add s msg mmsg sched genId, ?_, ?_, ?_, ?_⟩
  · rw [addState_eq]
    show mapInsert s.Notifs genId s.heap.length genId = some s.heap.length
    simp [mapInsert]
  · rw [addState_eq]
    exact List.getElem?_concat_length _ _
  · rw [addState_eq]
  · intro k hk
    rw [addState_eq]
    show mapInsert s.Notifs genId s.heap.length k = s.Notifs k
    simp [mapInsert, hk]

theorem add_registers_before_waiter_witness :
    Step initState sA ∧ sA.Notifs "other" = initState.Notifs "other" :=
  ⟨(add_registers_before_waiter initState (some msgW) none 0 "nid1").1,
   (add_registers_before_waiter initState (some msgW) none 0 "nid1").2.2.2.2
     "other" (by decide)⟩

/-- First `Add` with generator output "dup". -/
def sDup1 : SysState := addState initState (some ⟨"t1"⟩) none 5 "dup"

/-- Second `Add`, the generator having produced the same id "dup". -/
def sDup2 : SysState := addState sDup1 (some ⟨"t2"⟩) none 7 "dup"

/-- C5 counterexample: `AddNotification` discards the error of
`gonanoid.New()` (`id, _ := ...`) and assigns into the map unconditionally,
so a duplicate generated id silently overwrites the existing entry: after
the second `Add` the key "dup" points to the new record (heap reference 1),
the first record (reference 0) still exists but is no longer reachable
from the Registry under its id. -/
theorem duplicate_id_overwrites_counterexample :
    Step sDup1 sDup2 ∧
    sDup1.Notifs "dup" = some 0 ∧
    sDup2.Notifs "dup" = some 1 ∧
    sDup2.Notifs "dup" ≠ some 0 ∧
    sDup2.heap[0]? = some ⟨"dup", some ⟨"t1"⟩, none, 5, false⟩ :=
  ⟨Step.add sDup1 (some ⟨"t2"⟩) none 7 "dup",
   by decide, by decide, by decide, by decide⟩

/-- C5 amended: Registry keys are unique by construction (it is a map), but
the code does not guard identifier generation: whenever the generator
returns an id already bound to another record, the `Add` rebinds that id to
the new record, silently dropping the old binding. -/
theorem add_with_duplicate_id_overwrites (s : SysState) (msg : Option Message)
    (mmsg : Option MulticastMessage) (sched : Nat) (genId : String)
    (oldRef : Nat) (_hold : s.Notifs genId = some oldRef)
    (hne : oldRef ≠ s.heap.length) :
    (addState s msg mmsg sched genId).Notifs genId = some s.heap.length ∧
    (addState s msg mmsg sched genId).Notifs genId ≠ some oldRef := by
  have h1 : (addState s msg mmsg sched genId).Notifs genId =
      some s.heap.length := by
    rw [addState_eq]
    show mapInsert s.Notifs genId s.heap.length genId = some s.heap.length
    simp [mapInsert]
  refine ⟨h1, ?_⟩
  rw [h1]
  intro hc
  injection hc with hcc
  exact hne hcc.symm

theorem add_with_duplicate_id_overwrites_witness :
    sDup2.Notifs "dup" = some sDup1.heap.length ∧
    sDup2.Notifs "dup" ≠ some 0 :=
  add_with_duplicate_id_overwrites sDup1 (some ⟨"t2"⟩) none 7 "dup" 0
    (by decide) (by decide)

/-- C8: `RemoveNotification` deletes the entry if present and is
idempotent: removing twice equals removing once, the removed key is absent
afterwards, no other key is affected, and removing an absent id is a
complete no-op (the map is unchanged), with no error reported. -/
theorem removeNotification_idempotent (m : NotifMap) (target : String) :
    RemoveNotification (RemoveNotification m target) target =
      RemoveNotification m target ∧
    RemoveNotification m target target = none ∧
    (∀ k, k ≠ target → RemoveNotification m target k = m k) ∧
    (m target = none → RemoveNotification m target = m) := by
  refine ⟨?_, ?_, ?_, ?_⟩
  · funext k
    by_cases hk : k = target <;> simp [RemoveNotification, hk]
  · simp [RemoveNotification]
  · intro k hk
    simp [RemoveNotification, hk]
  · intro h
    funext k
    by_cases hk : k = target <;> simp [RemoveNotification, hk, h]

/-- A registry containing only the id "x". -/
def mapX : NotifMap := fun k => if k = "x" then some 0 else none

theorem removeNotification_idempotent_witness :
    RemoveNotification (RemoveNotification mapX "x") "x" =
      RemoveNotification mapX "x" ∧
    RemoveNotification mapX "a" = mapX :=
  ⟨(removeNotification_idempotent mapX "x").1,
   (removeNotification_idempotent mapX "a").2.2.2 (by decide)⟩

/-- C9: when both payload variants are populated, the dispatcher's
`if notif.Message != nil` branch wins: only the single-send operation is
invoked; `SendEachForMulticast` is never called for such a record. -/
theorem message_takes_priority (m : NotifMap) (notif : ScheduledNotification)
    (outcome : DeliveryOutcome) (msg : Message) (mm : MulticastMessage)
    (h1 : notif.Message = some msg) (_h2 : notif.MulticastMessage = some mm) :
    (dispatchOnce m notif outcome).2 = SendCall.sendOne msg ∧
    ∀ mm', (dispatchOnce m notif outcome).2 ≠ SendCall.sendMany mm' := by
  have hone : (dispatchOnce m notif outcome).2 = SendCall.sendOne msg := by
    cases outcome <;> simp [dispatchOnce, h1]
  refine ⟨hone, ?_⟩
  intro mm' hc
  rw [hone] at hc
  cases hc

/-- A record with both variants populated. -/
def notifBoth : ScheduledNotification :=
  ⟨"b", some ⟨"tokB"⟩, some ⟨["d1", "d2"]⟩, 0, false⟩

theorem message_takes_priority_witness :
    (dispatchOnce emptyMap notifBoth .ok).2 = SendCall.sendOne ⟨"tokB"⟩ ∧
    (dispatchOnce emptyMap notifBoth .ok).2 ≠
      SendCall.sendMany ⟨["d1", "d2"]⟩ :=
  ⟨(message_takes_priority emptyMap notifBoth .ok ⟨"tokB"⟩ ⟨["d1", "d2"]⟩
      rfl rfl).1,
   (message_takes_priority emptyMap notifBoth .ok ⟨"tokB"⟩ ⟨["d1", "d2"]⟩
      rfl rfl).2 ⟨["d1", "d2"]⟩⟩

/-- C10: `AddNotification` discards any caller-supplied `Id` on the passed
record, overwriting it with the generated id, and the Registry stores the
caller's record itself (the same heap reference `ref`, not a copy), so
caller and scheduler share the same mutable record after registration. -/
theorem addNotification_shares_record (heap : List ScheduledNotification)
    (m : NotifMap) (ref : Nat) (r : ScheduledNotification) (genId : String)
    (h : heap[ref]? = some r) :
    (AddNotification heap m ref genId).2 genId = some ref ∧
    (AddNotification heap m ref genId).1[ref]? =
      some { r with Id := genId } := by
  unfold AddNotification
  rw [h]
  constructor
  · show mapInsert m genId ref genId = some ref
    simp [mapInsert]
  · exact List.getElem?_set_self (List.getElem?_eq_some_iff.mp h).1

/-- A caller-constructed record carrying a caller-chosen id. -/
def recCaller : ScheduledNotification :=
  ⟨"caller-chosen", some ⟨"tokC"⟩, none, 3, false⟩

theorem addNotification_shares_record_witness :
    (AddNotification [recCaller] emptyMap 0 "fresh").2 "fresh" = some 0 ∧
    (AddNotification [recCaller] emptyMap 0 "fresh").1[0]? =
      some ⟨"fresh", some ⟨"tokC"⟩, none, 3, false⟩ :=
  addNotification_shares_record [recCaller] emptyMap 0 recCaller "fresh"
    (by decide)
